import Mathlib

/-!
Shallow embedding of the accumulate–release simulation core
(`arg_lab/simulate.py`, `arg_lab/analysis.py`).

Modelling conventions:
* Python floats are modelled as exact rationals (`ℚ`).
* Python's IEEE `nan` values (used by the analysis layer for degenerate
  durations, slopes and relative margins) are modelled as `Option ℚ`,
  with `none` playing the role of `nan`.
* Python exceptions are modelled by `Except PyError`.  The source raises
  `ValueError` for every configuration problem (including `max()` on an
  empty sequence); the specification calls this single kind
  `ConfigurationError`, so the corresponding constructor is named
  `PyError.configurationError`.  The `assert` statement in
  `_piecewise_rate` maps to `PyError.assertionError` and an out-of-range
  list index (`segments[-1]` on an empty list) to `PyError.indexError`.
* The pseudo-random generator derived from the `seed` argument is
  modelled by explicit streams of draws: `simulate_cycle` takes a
  function `noise : ℕ → ℚ` giving the Gaussian draw available at each
  step, and `simulate_ensemble` takes a stream `gauss : ℕ → ℚ` of
  standard-normal draws (numpy's `normal(scale=s)` is `s` times a
  standard-normal draw) plus per-member noise streams standing for the
  sub-seeded per-trajectory generators.
-/

/-- Threshold definition for accumulate–release dynamics
(`ThresholdSpec` in `arg_lab/scenarios.py`). -/
structure ThresholdSpec where
  theta : ℚ
  reset : ℚ
  delta_s : ℚ
deriving Repr, DecidableEq

/-- One piecewise-drive segment (`dict` with keys `end` and `rate` in the
source; the `end` key is rendered `endTime` because `end` is a keyword). -/
structure Segment where
  endTime : ℚ
  rate : ℚ
deriving Repr, DecidableEq

/-- Definition of the accumulator drive (`DriverSpec` in
`arg_lab/scenarios.py`); `none` models Python's `None`. -/
structure DriverSpec where
  type : String
  rate : Option ℚ := none
  leak : Option ℚ := none
  segments : Option (List Segment) := none
  noise_std : ℚ := 0
deriving Repr, DecidableEq

/-- A complete accumulate–release configuration (`Scenario` in
`arg_lab/scenarios.py`). -/
structure Scenario where
  id : String
  label : String
  description : String
  dt : ℚ
  duration : ℚ
  initial_state : ℚ
  driver : DriverSpec
  thresholds : List ThresholdSpec
deriving Repr, DecidableEq

/-- A threshold crossing and release (`Event` in `arg_lab/simulate.py`). -/
structure Event where
  time : ℚ
  theta : ℚ
  reset : ℚ
  delta_s : ℚ
  state_before : ℚ
  state_after : ℚ
deriving Repr, DecidableEq

/-- The Python exception kinds the embedded code can raise.  The source's
`ValueError` realises the spec's single `ConfigurationError` kind. -/
inductive PyError where
  | configurationError : String → PyError
  | assertionError : PyError
  | indexError : PyError
deriving Repr, DecidableEq

/-- Does a call raise the spec's `ConfigurationError` kind (a Python
`ValueError` in the source)? -/
def raisesConfigurationError {α : Type} : Except PyError α → Bool
  | .error (.configurationError _) => true
  | _ => false

/-- Embeds `_piecewise_rate` (`arg_lab/simulate.py` lines 24–29): the
`assert driver.segments is not None` maps to `assertionError`, the scan
`for segment: if time <= segment.end: return segment.rate` to `find?`,
and the fallback `segments[-1].rate` to `getLast?` (raising `indexError`
on an empty list, as Python indexing would). -/
def piecewise_rate (driver : DriverSpec) (time : ℚ) : Except PyError ℚ :=
  match driver.segments with
  | none => .error .assertionError
  | some segs =>
    match segs.find? (fun seg => time ≤ seg.endTime) with
    | some seg => .ok seg.rate
    | none =>
      match segs.getLast? with
      | some seg => .ok seg.rate
      | none => .error .indexError

/-- Embeds `_driver_derivative` (`arg_lab/simulate.py` lines 32–43). -/
def driver_derivative (driver : DriverSpec) (time state : ℚ) : Except PyError ℚ :=
  if driver.type = "leaky" then
    match driver.rate, driver.leak with
    | some r, some l => .ok (r - l * state)
    | _, _ => .error (.configurationError ("Leaky driver requires rate and leak parameters"))
  else if driver.type = "linear" then
    match driver.rate with
    | some r => .ok r
    | none => .error (.configurationError ("Linear driver requires rate parameter"))
  else if driver.type = "piecewise" then
    piecewise_rate driver time
  else
    .error (.configurationError ("Unsupported driver type"))

/-- Number of grid samples: `int(np.ceil(duration / dt)) + 1`
(`arg_lab/simulate.py` line 50).  For the `dt > 0`, `duration ≥ 0`
scenarios of the spec the ceiling is non-negative, where `toNat` agrees
with Python's `int` truncation. -/
def numSteps (s : Scenario) : ℕ :=
  (⌈s.duration / s.dt⌉).toNat + 1

/-- Embeds `np.linspace(0.0, duration, steps)` (`arg_lab/simulate.py`
line 51): `steps` evenly spaced samples from `0` to `duration`
inclusive; with fewer than two samples the only sample (if any) is the
start point `0`. -/
def linspace01 (duration : ℚ) (steps : ℕ) : List ℚ :=
  if steps ≤ 1 then List.replicate steps 0
  else (List.range steps).map (fun i : ℕ => duration * (i : ℚ) / ((steps - 1 : ℕ) : ℚ))

/-- The simulated time grid of a scenario. -/
def timeGrid (s : Scenario) : List ℚ :=
  linspace01 s.duration (numSteps s)

/-- Thresholds sorted ascending by `theta`
(`sorted(scenario.thresholds, key=lambda th: th.theta)`,
`arg_lab/simulate.py` line 59); `mergeSort` is stable like Python's
`sorted`. -/
def sortedThresholds (s : Scenario) : List ThresholdSpec :=
  s.thresholds.mergeSort (fun a b => a.theta ≤ b.theta)

/-- Loop state of `simulate_cycle`: the columns filled so far.  `xs`,
`orders`, `rels` hold samples `0..i` after processing step `i`; `drvs`
holds the derivatives recorded for slots `0..i-1`. -/
structure SimAcc where
  xs : List ℚ
  orders : List ℚ
  rels : List ℕ
  drvs : List ℚ
  events : List Event
deriving Repr, DecidableEq

/-- One iteration of the integration loop (`arg_lab/simulate.py` lines
61–93) at index `idx ≥ 1`: evaluate the drive at the previous sample,
optionally add noise, take one explicit Euler step, fire the
highest-`theta` crossed threshold if any, and clamp the new sample to a
floor of `0`. -/
def stepFn (s : Scenario) (noise : ℕ → ℚ) (times : List ℚ) (idx : ℕ)
    (acc : SimAcc) : Except PyError SimAcc :=
  match driver_derivative s.driver (times.getD (idx - 1) 0) (acc.xs.getLastD 0) with
  | .error e => .error e
  | .ok d0 =>
    let derivative := if s.driver.noise_std > 0 then d0 + noise idx else d0
    let state_next := acc.xs.getLastD 0 + derivative * s.dt
    let crossed := (sortedThresholds s).filter (fun th => state_next ≥ th.theta)
    match crossed.getLast? with
    | some selected =>
      .ok { xs := acc.xs ++ [max selected.reset 0],
            orders := acc.orders ++ [acc.orders.getLastD 0 + selected.delta_s],
            rels := acc.rels ++ [1],
            drvs := acc.drvs ++ [derivative],
            events := acc.events ++
              [{ time := times.getD idx 0, theta := selected.theta,
                 reset := selected.reset, delta_s := selected.delta_s,
                 state_before := state_next, state_after := selected.reset }] }
    | none =>
      .ok { xs := acc.xs ++ [max state_next 0],
            orders := acc.orders ++ [acc.orders.getLastD 0],
            rels := acc.rels ++ [0],
            drvs := acc.drvs ++ [derivative],
            events := acc.events }

/-- Loop state after the iterations for indices `1..n` (the Python `for
idx in range(1, steps)` unrolled to its first `n` iterations); an
exception from the drive evaluator aborts the run. -/
def simUpTo (s : Scenario) (noise : ℕ → ℚ) (times : List ℚ) :
    ℕ → Except PyError SimAcc
  | 0 => .ok { xs := [s.initial_state], orders := [0], rels := [0], drvs := [], events := [] }
  | n + 1 =>
    match simUpTo s noise times n with
    | .error e => .error e
    | .ok acc => stepFn s noise times (n + 1) acc

/-- Forward fill of the driver column's final slot
(`driver_values[-1] = driver_values[-2] if steps > 1 else 0.0`,
`arg_lab/simulate.py` line 95). -/
def fillDriver (steps : ℕ) (drvs : List ℚ) : List ℚ :=
  if 1 < steps then drvs ++ [drvs.getLastD 0] else [0]

/-- The sample table returned by the integrator (the pandas `DataFrame`
of `arg_lab/simulate.py` lines 97–105, as a struct of columns). -/
structure SampleTable where
  time : List ℚ
  accumulator : List ℚ
  order_parameter : List ℚ
  driver : List ℚ
  release : List ℕ
deriving Repr, DecidableEq

/-- Embeds `simulate_cycle` (`arg_lab/simulate.py` lines 46–106), with
the seed-derived Gaussian stream passed explicitly as `noise`. -/
def simulate_cycle (s : Scenario) (noise : ℕ → ℚ) :
    Except PyError (SampleTable × List Event) :=
  match simUpTo s noise (timeGrid s) (numSteps s - 1) with
  | .error e => .error e
  | .ok acc =>
    .ok ({ time := timeGrid s,
           accumulator := acc.xs,
           order_parameter := acc.orders,
           driver := fillDriver (numSteps s) acc.drvs,
           release := acc.rels }, acc.events)

/-- Key statistics for a single accumulate–release cycle (`CycleSummary`
in `arg_lab/analysis.py`); `none` models the `np.nan` placeholders. -/
structure CycleSummary where
  start_time : ℚ
  end_time : ℚ
  duration : Option ℚ
  ramp_amplitude : ℚ
  mean_slope : Option ℚ
  release_gain : ℚ
  theta : ℚ
  reset_level : ℚ
deriving Repr, DecidableEq

/-- The event loop of `summarize_cycles` (`arg_lab/analysis.py` lines
49–70), with the running `last_time`, `last_state`, `last_order`
variables passed explicitly.  A non-`nan` duration is necessarily
positive, so Python's `duration and not np.isnan(duration)` guard
becomes the `d = 0` test on the `some` branch. -/
def summarizeFrom (last_time last_state last_order : ℚ) :
    List Event → List CycleSummary
  | [] => []
  | ev :: rest =>
    let duration0 := ev.time - last_time
    let duration : Option ℚ := if duration0 ≤ 0 then none else some duration0
    let amplitude := ev.state_before - last_state
    let mean_slope : Option ℚ :=
      match duration with
      | some d => if d = 0 then none else some (amplitude / d)
      | none => none
    { start_time := last_time, end_time := ev.time, duration := duration,
      ramp_amplitude := amplitude, mean_slope := mean_slope,
      release_gain := ev.delta_s, theta := ev.theta, reset_level := ev.reset }
      :: summarizeFrom ev.time ev.reset (last_order + ev.delta_s) rest

/-- Embeds `summarize_cycles` (`arg_lab/analysis.py` lines 27–72).  The
source reads `frame["time"].iloc[0]` only when events exist; `headD 0`
stands for that first sample (the source presumes a non-empty table). -/
def summarize_cycles (frame : SampleTable) (events : List Event)
    (initial_state : ℚ) : List CycleSummary :=
  if events.isEmpty then []
  else summarizeFrom (frame.time.headD 0) initial_state 0 events

/-- Result record of `compute_viability_margin`; `none` models the
`np.nan` relative margin. -/
structure ViabilityMargin where
  current_state : ℚ
  top_threshold : ℚ
  margin : ℚ
  relative_margin : Option ℚ
deriving Repr, DecidableEq

/-- Embeds `compute_viability_margin` (`arg_lab/analysis.py` lines
75–87).  Python's `max()` on an empty sequence raises `ValueError`, the
source's realisation of the spec's `ConfigurationError`.  The source
reads `frame["accumulator"].iloc[-1]`, presuming a non-empty table;
`getLastD 0` stands for that last sample. -/
def compute_viability_margin (frame : SampleTable)
    (thresholds : List ThresholdSpec) : Except PyError ViabilityMargin :=
  match (thresholds.map (fun th => th.theta)).max? with
  | none => .error (.configurationError ("max() arg is an empty sequence"))
  | some top =>
    let current := frame.accumulator.getLastD 0
    let margin := top - current
    .ok { current_state := current, top_threshold := top, margin := margin,
          relative_margin := if top ≠ 0 then some (margin / top) else none }

/-- Lookup in the jitter configuration with default `0`
(`jitter.get(key, 0.0)` in `arg_lab/simulate.py`; `jitter = jitter or
\x7b\x7d` makes an absent dictionary behave as the empty one, modelled
by the all-`none` function). -/
def jitterGet (jitter : String → Option ℚ) (key : String) : ℚ :=
  (jitter key).getD 0

/-- Per-threshold perturbation loop of `simulate_ensemble`
(`arg_lab/simulate.py` lines 124–129); `c` is the position in the
top-level generator's stream of standard-normal draws, two draws per
threshold, and `delta_s = th.delta_s` is copied unperturbed. -/
def perturbThresholds (gauss : ℕ → ℚ) (jTheta jReset : ℚ) :
    ℕ → List ThresholdSpec → List ThresholdSpec
  | _, [] => []
  | c, th :: rest =>
    { theta := th.theta * (1 + jTheta * gauss c),
      reset := th.reset * (1 + jReset * gauss (c + 1)),
      delta_s := th.delta_s } :: perturbThresholds gauss jTheta jReset (c + 2) rest

/-- The perturbed scenario copy built for ensemble member `index`
(`arg_lab/simulate.py` lines 121–147): draws `c` and `c+1` scale `rate`
and `leak`, draws `c+2 ..` perturb the thresholds, and all other fields
are copied. -/
def perturbedScenario (s : Scenario) (jitter : String → Option ℚ)
    (gauss : ℕ → ℚ) (c : ℕ) (index : ℕ) : Scenario :=
  let rate_scale := 1 + jitterGet jitter ("rate") * gauss c
  let leak_scale := 1 + jitterGet jitter ("leak") * gauss (c + 1)
  { id := s.id ++ "_member" ++ toString index,
    label := s.label,
    description := s.description,
    dt := s.dt,
    duration := s.duration,
    initial_state := s.initial_state,
    driver := { type := s.driver.type,
                rate := s.driver.rate.map (fun r => r * rate_scale),
                leak := s.driver.leak.map (fun l => l * leak_scale),
                segments := s.driver.segments,
                noise_std := s.driver.noise_std },
    thresholds := perturbThresholds gauss (jitterGet jitter ("theta"))
      (jitterGet jitter ("reset")) (c + 2) s.thresholds }

/-- A sample table tagged with its ensemble member index
(`frame["member"] = index`, `arg_lab/simulate.py` line 149). -/
structure TaggedTable where
  frame : SampleTable
  member : ℕ
deriving Repr, DecidableEq

/-- Draws the top-level generator spends per ensemble member: the two
scale draws, two draws per threshold, and the `rng.integers` sub-seed
draw. -/
def memberDrawCount (s : Scenario) : ℕ :=
  3 + 2 * s.thresholds.length

/-- The member loop of `simulate_ensemble` (`arg_lab/simulate.py` lines
120–150): `size` remaining members starting at member `index` with the
top-level generator at stream position `c`; `memberNoise index` is the
noise stream of the generator sub-seeded for that member. -/
def ensembleFrom (s : Scenario) (jitter : String → Option ℚ)
    (gauss : ℕ → ℚ) (memberNoise : ℕ → ℕ → ℚ) :
    ℕ → ℕ → ℕ → Except PyError (List TaggedTable)
  | 0, _, _ => .ok []
  | size + 1, index, c =>
    match simulate_cycle (perturbedScenario s jitter gauss c index)
        (memberNoise index) with
    | .error e => .error e
    | .ok (frame, _) =>
      match ensembleFrom s jitter gauss memberNoise size (index + 1)
          (c + memberDrawCount s) with
      | .error e => .error e
      | .ok rest => .ok ({ frame := frame, member := index } :: rest)

/-- Embeds `simulate_ensemble` (`arg_lab/simulate.py` lines 109–151),
with the seed-derived randomness passed as the explicit streams `gauss`
(top-level standard-normal draws) and `memberNoise` (per-member
trajectory noise). -/
def simulate_ensemble (s : Scenario) (size : ℕ)
    (jitter : String → Option ℚ) (gauss : ℕ → ℚ)
    (memberNoise : ℕ → ℕ → ℚ) : Except PyError (List TaggedTable) :=
  ensembleFrom s jitter gauss memberNoise size 0 0

/-- The all-zero draw stream, used to instantiate the seed-derived
streams at concrete inputs (a zero Gaussian draw is what
`normal(scale=0)` returns). -/
def zeroStream : ℕ → ℚ := fun _ => 0

/-- All-zero per-member noise streams for concrete ensemble runs. -/
def zeroStream2 : ℕ → ℕ → ℚ := fun _ _ => 0

/-- The empty jitter configuration (`jitter=None` / `\x7b\x7d`). -/
def noJitter : String → Option ℚ := fun _ => none

/-- A concrete noise-free linear-drive scenario with one threshold,
used as a concrete input for witnesses. -/
def demoScenario : Scenario :=
  { id := "demo", label := "demo", description := "demo",
    dt := 1, duration := 3, initial_state := 0,
    driver := { type := "linear", rate := some 1 },
    thresholds := [⟨2, 0, 1⟩] }

/-- The single release event of the `demoScenario` run. -/
def demoEvent : Event := ⟨2, 2, 0, 1, 2, 0⟩

/-- The sample table produced by `simulate_cycle demoScenario zeroStream`. -/
def demoTable : SampleTable :=
  { time := [0, 1, 2, 3], accumulator := [0, 1, 0, 1],
    order_parameter := [0, 0, 1, 1], driver := [1, 1, 1, 1],
    release := [0, 0, 1, 0] }

/-- A scenario whose initial state is negative (the data model allows any
float there), used to probe the clamping claim at sample index 0. -/
def negStartScenario : Scenario :=
  { id := "neg", label := "neg", description := "neg",
    dt := 1, duration := 1, initial_state := -1,
    driver := { type := "linear", rate := some 1 },
    thresholds := [⟨10, 0, 1⟩] }

/-- The sample table produced by `simulate_cycle negStartScenario
zeroStream`: its first accumulator entry is the unclamped `-1`. -/
def negStartTable : SampleTable :=
  { time := [0, 1], accumulator := [-1, 0], order_parameter := [0, 0],
    driver := [1, 1], release := [0, 0] }

/-- A scenario whose duration is not an integer multiple of `dt`
(`duration = 1`, `dt = 2/5`), used to probe the grid-spacing claim. -/
def fracStepScenario : Scenario :=
  { id := "frac", label := "frac", description := "frac",
    dt := 2/5, duration := 1, initial_state := 0,
    driver := { type := "linear", rate := some 0 },
    thresholds := [⟨10, 0, 1⟩] }

/-- The sample table produced by `simulate_cycle fracStepScenario
zeroStream`: four samples spaced `1/3` apart, all other columns zero. -/
def fracStepTable : SampleTable :=
  { time := [0, 1/3, 2/3, 1], accumulator := [0, 0, 0, 0],
    order_parameter := [0, 0, 0, 0], driver := [0, 0, 0, 0],
    release := [0, 0, 0, 0] }

/-- A leaky driver missing its `leak` parameter. -/
def leakyMissing : DriverSpec := { type := "leaky", rate := some 1 }

/-- A linear driver missing its `rate` parameter. -/
def linearMissing : DriverSpec := { type := "linear" }

/-- A driver with an unsupported type string. -/
def weirdDriver : DriverSpec := { type := "quadratic" }

/-- A piecewise driver whose `segments` field is absent (`None`). -/
def pwAbsent : DriverSpec := { type := "piecewise" }

/-- A piecewise driver whose segment list is empty. -/
def pwEmpty : DriverSpec := { type := "piecewise", segments := some [] }

/-- An empty sample table, a concrete input for the margin calculator. -/
def emptyTable : SampleTable := ⟨[], [], [], [], []⟩

/-- The cycle summary of the single `demoScenario` release. -/
def demoSummary : CycleSummary := ⟨0, 2, some 2, 2, some 1, 1, 2, 0⟩

/-- The member-0 perturbed copy of `demoScenario` under the empty jitter
configuration and all-zero draws. -/
def demoMember0 : Scenario :=
  { id := "demo" ++ "_member" ++ toString 0, label := "demo",
    description := "demo", dt := 1, duration := 3, initial_state := 0,
    driver := { type := "linear", rate := some 1 },
    thresholds := [⟨2, 0, 1⟩] }

/-- The last element of a list is a member. -/
lemma mem_of_getLast?_eq {α : Type} {l : List α} {x : α}
    (h : l.getLast? = some x) : x ∈ l := by
  obtain ⟨ys, rfl⟩ := List.getLast?_eq_some_iff.mp h
  exact List.mem_append.mpr (Or.inr (List.mem_singleton.mpr rfl))

/-- The sorted threshold list is pairwise ordered by `theta`. -/
lemma sortedThresholds_pairwise (s : Scenario) :
    (sortedThresholds s).Pairwise (fun a b => a.theta ≤ b.theta) := by
  unfold sortedThresholds
  have h := @List.sorted_mergeSort ThresholdSpec
      (fun a b => a.theta ≤ b.theta)
      (fun a b c hab hbc => by
        simp only [decide_eq_true_eq] at hab hbc ⊢
        exact le_trans hab hbc)
      (fun a b => by
        simp only [Bool.or_eq_true, decide_eq_true_eq]
        exact le_total a.theta b.theta)
      s.thresholds
  exact h.imp (fun hab => of_decide_eq_true hab)

/-- In a `theta`-sorted list the last element has the largest `theta`. -/
lemma getLast?_theta_max {l : List ThresholdSpec}
    (hs : l.Pairwise (fun a b => a.theta ≤ b.theta)) {x : ThresholdSpec}
    (hx : l.getLast? = some x) : ∀ y ∈ l, y.theta ≤ x.theta := by
  obtain ⟨ys, rfl⟩ := List.getLast?_eq_some_iff.mp hx
  intro y hy
  rcases List.mem_append.mp hy with h | h
  · exact (List.pairwise_append.mp hs).2.2 y h x (List.mem_singleton.mpr rfl)
  · rw [List.mem_singleton.mp h]

/-- Sorting the thresholds does not change membership. -/
lemma mem_sortedThresholds {s : Scenario} {th : ThresholdSpec}
    (h : th ∈ sortedThresholds s) : th ∈ s.thresholds := by
  unfold sortedThresholds at h
  exact List.mem_mergeSort.mp h

/-- Structural inversion of one successful integration step: one sample
is appended to every column, clamped with `max · 0` in the accumulator,
and either nothing fires (order parameter copied, release 0, no event)
or one sorted threshold fires (its `delta_s` added, release 1, one
event appended). -/
lemma stepFn_ok_inv {s : Scenario} {noise : ℕ → ℚ} {times : List ℚ}
    {idx : ℕ} {acc acc2 : SimAcc}
    (h : stepFn s noise times idx acc = .ok acc2) :
    ∃ q d,
      acc2.xs = acc.xs ++ [max q 0] ∧
      acc2.drvs = acc.drvs ++ [d] ∧
      ((acc2.orders = acc.orders ++ [acc.orders.getLastD 0] ∧
        acc2.rels = acc.rels ++ [0] ∧ acc2.events = acc.events) ∨
       (∃ sel, sel ∈ sortedThresholds s ∧
         acc2.orders = acc.orders ++ [acc.orders.getLastD 0 + sel.delta_s] ∧
         acc2.rels = acc.rels ++ [1] ∧
         ∃ ev, acc2.events = acc.events ++ [ev])) := by
  unfold stepFn at h
  cases hd : driver_derivative s.driver (times.getD (idx - 1) 0) (acc.xs.getLastD 0) with
  | error e =>
    rw [hd] at h
    exact Except.noConfusion h
  | ok d0 =>
    rw [hd] at h
    dsimp only at h
    rcases hsel : ((sortedThresholds s).filter
        (fun th => acc.xs.getLastD 0 +
          (if s.driver.noise_std > 0 then d0 + noise idx else d0) * s.dt ≥
            th.theta)).getLast? with _ | sel
    · rw [hsel] at h
      dsimp only at h
      cases h
      exact ⟨_, _, rfl, rfl, Or.inl ⟨rfl, rfl, rfl⟩⟩
    · rw [hsel] at h
      dsimp only at h
      cases h
      exact ⟨sel.reset, _, rfl, rfl,
        Or.inr ⟨sel, List.mem_of_mem_filter (mem_of_getLast?_eq hsel), rfl, rfl, _, rfl⟩⟩

/-- A successful run of `n + 1` loop iterations factors through the
first `n` iterations followed by one step. -/
lemma simUpTo_succ_inv {s : Scenario} {noise : ℕ → ℚ} {times : List ℚ}
    {n : ℕ} {acc2 : SimAcc}
    (h : simUpTo s noise times (n + 1) = .ok acc2) :
    ∃ acc, simUpTo s noise times n = .ok acc ∧
      stepFn s noise times (n + 1) acc = .ok acc2 := by
  unfold simUpTo at h
  cases hprev : simUpTo s noise times n with
  | error e => rw [hprev] at h; exact Except.noConfusion h
  | ok acc => rw [hprev] at h; exact ⟨acc, rfl, h⟩

/-- Invariant: when the initial state is non-negative, every accumulator
sample produced by the loop is non-negative. -/
lemma simUpTo_xs_nonneg {s : Scenario} {noise : ℕ → ℚ} {times : List ℚ}
    (hinit : 0 ≤ s.initial_state) :
    ∀ n {acc}, simUpTo s noise times n = .ok acc → ∀ v ∈ acc.xs, 0 ≤ v := by
  intro n
  induction n with
  | zero =>
    intro acc h v hv
    unfold simUpTo at h
    cases h
    simp only [List.mem_singleton] at hv
    exact hv ▸ hinit
  | succ n ih =>
    intro acc2 h v hv
    obtain ⟨acc, hprev, hstep⟩ := simUpTo_succ_inv h
    obtain ⟨q, d, hxs, -, -⟩ := stepFn_ok_inv hstep
    rw [hxs] at hv
    rcases List.mem_append.mp hv with h1 | h2
    · exact ih hprev v h1
    · rw [List.mem_singleton.mp h2]
      exact le_max_right q 0

/-- Invariant: when every threshold has non-negative `delta_s`, the
order-parameter column is non-decreasing. -/
lemma simUpTo_orders_chain {s : Scenario} {noise : ℕ → ℚ} {times : List ℚ}
    (hds : ∀ th ∈ s.thresholds, 0 ≤ th.delta_s) :
    ∀ n {acc}, simUpTo s noise times n = .ok acc →
      acc.orders.Chain' (fun a b => a ≤ b) := by
  intro n
  induction n with
  | zero =>
    intro acc h
    unfold simUpTo at h
    cases h
    simp
  | succ n ih =>
    intro acc2 h
    obtain ⟨acc, hprev, hstep⟩ := simUpTo_succ_inv h
    obtain ⟨q, d, -, -, hcase⟩ := stepFn_ok_inv hstep
    rcases hcase with ⟨ho, -, -⟩ | ⟨sel, hmem, ho, -, -⟩
    · rw [ho]
      refine List.chain'_append.mpr ⟨ih hprev, List.chain'_singleton _, ?_⟩
      intro x hx y hy
      simp only [List.head?_cons, Option.mem_def, Option.some.injEq] at hy
      rw [← hy, List.getLastD_eq_getLast?, hx]
      rfl
    · rw [ho]
      refine List.chain'_append.mpr ⟨ih hprev, List.chain'_singleton _, ?_⟩
      intro x hx y hy
      simp only [List.head?_cons, Option.mem_def, Option.some.injEq] at hy
      rw [← hy, List.getLastD_eq_getLast?, hx]
      exact le_add_of_nonneg_right (hds sel (mem_sortedThresholds hmem))

/-- When the driver carries no noise, a step does not consult the noise
stream. -/
lemma stepFn_noise_eq {s : Scenario} (h0 : s.driver.noise_std = 0)
    (noise1 noise2 : ℕ → ℚ) (times : List ℚ) (idx : ℕ) (acc : SimAcc) :
    stepFn s noise1 times idx acc = stepFn s noise2 times idx acc := by
  unfold stepFn
  cases driver_derivative s.driver (times.getD (idx - 1) 0) (acc.xs.getLastD 0) with
  | error e => rfl
  | ok d0 => simp [h0]

/-- When the driver carries no noise, the whole loop does not consult
the noise stream. -/
lemma simUpTo_noise_eq {s : Scenario} (h0 : s.driver.noise_std = 0)
    (noise1 noise2 : ℕ → ℚ) (times : List ℚ) :
    ∀ n, simUpTo s noise1 times n = simUpTo s noise2 times n := by
  intro n
  induction n with
  | zero => rfl
  | succ n ih =>
    unfold simUpTo
    rw [ih]
    cases simUpTo s noise2 times n with
    | error e => rfl
    | ok acc => exact stepFn_noise_eq h0 noise1 noise2 times (n + 1) acc

/-- The linspace grid always has exactly `steps` samples. -/
lemma linspace01_length (d : ℚ) (steps : ℕ) :
    (linspace01 d steps).length = steps := by
  unfold linspace01
  split
  · rw [List.length_replicate]
  · rw [List.length_map, List.length_range]

/-- Closed form of a linspace sample for grids with at least two points. -/
lemma linspace01_getD {d : ℚ} {steps j : ℕ} (h2 : 2 ≤ steps) (hj : j < steps) :
    (linspace01 d steps).getD j 0 = d * j / ((steps - 1 : ℕ) : ℚ) := by
  unfold linspace01
  rw [if_neg (by omega)]
  rw [List.getD_eq_getElem?_getD, List.getElem?_map, List.getElem?_range hj]
  rfl

/-- Grid size of the demo scenario. -/
lemma numSteps_demo : numSteps demoScenario = 4 := by
  norm_num [numSteps, demoScenario]
  decide

/-- Time grid of the demo scenario. -/
lemma timeGrid_demo : timeGrid demoScenario = [0, 1, 2, 3] := by
  unfold timeGrid
  rw [numSteps_demo]
  norm_num [linspace01, List.range_succ, demoScenario]

/-- Concrete evaluation of the demo run. -/
lemma demo_run : simulate_cycle demoScenario zeroStream =
    .ok (demoTable, [demoEvent]) := by
  unfold simulate_cycle
  rw [numSteps_demo, timeGrid_demo]
  have hs : simUpTo demoScenario zeroStream [0, 1, 2, 3] (4 - 1) =
      .ok ⟨[0, 1, 0, 1], [0, 0, 1, 1], [0, 0, 1, 0], [1, 1, 1],
        [⟨2, 2, 0, 1, 2, 0⟩]⟩ := by
    norm_num [simUpTo, stepFn, driver_derivative, sortedThresholds,
      demoScenario, zeroStream, List.getLastD, List.mergeSort, List.filter,
      List.getD, (show ¬("linear" : String) = "leaky" by decide)]
  rw [hs]
  norm_num [fillDriver, demoTable, demoEvent, List.getLastD]

/-- Grid size of the negative-start scenario. -/
lemma numSteps_negStart : numSteps negStartScenario = 2 := by
  norm_num [numSteps, negStartScenario]

/-- Time grid of the negative-start scenario. -/
lemma timeGrid_negStart : timeGrid negStartScenario = [0, 1] := by
  unfold timeGrid
  rw [numSteps_negStart]
  norm_num [linspace01, List.range_succ, negStartScenario]

/-- Concrete evaluation of the negative-start run: the accumulator's
first entry stays at the unclamped `-1`. -/
lemma negStart_run : simulate_cycle negStartScenario zeroStream =
    .ok (negStartTable, []) := by
  unfold simulate_cycle
  rw [numSteps_negStart, timeGrid_negStart]
  have hs : simUpTo negStartScenario zeroStream [0, 1] (2 - 1) =
      .ok ⟨[-1, 0], [0, 0], [0, 0], [1], []⟩ := by
    norm_num [simUpTo, stepFn, driver_derivative, sortedThresholds,
      negStartScenario, zeroStream, List.getLastD, List.mergeSort,
      List.filter, List.getD,
      (show ¬("linear" : String) = "leaky" by decide)]
  rw [hs]
  norm_num [fillDriver, negStartTable, List.getLastD]

/-- Grid size of the fractional-step scenario: `ceil(1 / (2/5)) + 1 = 4`. -/
lemma numSteps_fracStep : numSteps fracStepScenario = 4 := by
  have h : fracStepScenario.duration / fracStepScenario.dt = 5 / 2 := by
    norm_num [fracStepScenario]
  unfold numSteps
  rw [h, show ⌈(5 : ℚ) / 2⌉ = 3 by norm_num [Int.ceil_eq_iff]]
  decide

/-- Time grid of the fractional-step scenario: uniform spacing `1/3`. -/
lemma timeGrid_fracStep : timeGrid fracStepScenario = [0, 1/3, 2/3, 1] := by
  unfold timeGrid
  rw [numSteps_fracStep]
  norm_num [linspace01, List.range_succ, fracStepScenario]

/-- Concrete evaluation of the fractional-step run. -/
lemma fracStep_run : simulate_cycle fracStepScenario zeroStream =
    .ok (fracStepTable, []) := by
  unfold simulate_cycle
  rw [numSteps_fracStep, timeGrid_fracStep]
  have hs : simUpTo fracStepScenario zeroStream [0, 1/3, 2/3, 1] (4 - 1) =
      .ok ⟨[0, 0, 0, 0], [0, 0, 0, 0], [0, 0, 0, 0], [0, 0, 0], []⟩ := by
    norm_num [simUpTo, stepFn, driver_derivative, sortedThresholds,
      fracStepScenario, zeroStream, List.getLastD, List.mergeSort,
      List.filter, List.getD,
      (show ¬("linear" : String) = "leaky" by decide)]
  rw [hs]
  norm_num [fillDriver, fracStepTable, List.getLastD]

/-- C1 (counterexample): the claim says every accumulator entry is
non-negative for every scenario and seed, including index 0.  At the
concrete scenario `negStartScenario` (initial state `-1`) the run
succeeds and the accumulator's entry at index 0 is `-1 < 0`: index 0 is
`x[0] = scenario.initial_state`, which the code never clamps. -/
theorem C1_counterexample :
    simulate_cycle negStartScenario zeroStream = .ok (negStartTable, []) ∧
    negStartTable.accumulator.getD 0 0 = -1 ∧
    ¬ (0 : ℚ) ≤ negStartTable.accumulator.getD 0 0 := by
  refine ⟨negStart_run, ?_, ?_⟩ <;> norm_num [negStartTable, List.getD]

/-- C1 (amended): for every scenario whose initial state is
non-negative and every noise stream, every entry of the accumulator
column returned by `simulate_cycle` is `≥ 0`; entries at index `≥ 1`
are clamped with `max · 0` on both free drift and reset, and index 0
equals the (assumed non-negative) initial state. -/
theorem C1_accumulator_nonneg (s : Scenario) (noise : ℕ → ℚ)
    (tbl : SampleTable) (evs : List Event)
    (hok : simulate_cycle s noise = .ok (tbl, evs))
    (hinit : 0 ≤ s.initial_state) :
    ∀ v ∈ tbl.accumulator, 0 ≤ v := by
  unfold simulate_cycle at hok
  cases hsim : simUpTo s noise (timeGrid s) (numSteps s - 1) with
  | error e => rw [hsim] at hok; exact Except.noConfusion hok
  | ok acc =>
    rw [hsim] at hok
    dsimp only at hok
    cases hok
    exact simUpTo_xs_nonneg hinit _ hsim

/-- Witness for the amended C1 at the demo scenario. -/
theorem C1_accumulator_nonneg_witness :
    0 ≤ demoScenario.initial_state ∧ (0 : ℚ) ≤ 1 :=
  ⟨by norm_num [demoScenario],
   C1_accumulator_nonneg demoScenario zeroStream demoTable [demoEvent]
     demo_run (by norm_num [demoScenario]) 1 (by norm_num [demoTable])⟩

/-- C5: if every threshold's `delta_s` is non-negative then the
order-parameter column of a successful `simulate_cycle` run is
non-decreasing (each entry is `≤` its successor). -/
theorem C5_order_parameter_monotone (s : Scenario) (noise : ℕ → ℚ)
    (tbl : SampleTable) (evs : List Event)
    (hok : simulate_cycle s noise = .ok (tbl, evs))
    (hds : ∀ th ∈ s.thresholds, 0 ≤ th.delta_s) :
    tbl.order_parameter.Chain' (fun a b => a ≤ b) := by
  unfold simulate_cycle at hok
  cases hsim : simUpTo s noise (timeGrid s) (numSteps s - 1) with
  | error e => rw [hsim] at hok; exact Except.noConfusion hok
  | ok acc =>
    rw [hsim] at hok
    dsimp only at hok
    cases hok
    exact simUpTo_orders_chain hds _ hsim

/-- Witness for C5 at the demo scenario. -/
theorem C5_order_parameter_monotone_witness :
    demoTable.order_parameter.Chain' (fun a b => a ≤ b) :=
  C5_order_parameter_monotone demoScenario zeroStream demoTable [demoEvent]
    demo_run (by norm_num [demoScenario])

/-- The event loop produces one summary per event. -/
lemma summarizeFrom_length (evs : List Event) :
    ∀ (lt ls lo : ℚ), (summarizeFrom lt ls lo evs).length = evs.length := by
  induction evs with
  | nil => intro lt ls lo; rfl
  | cons e rest ih =>
    intro lt ls lo
    simp only [summarizeFrom, List.length_cons]
    rw [ih]

/-- C8: the cycle summarizer returns exactly one summary per event, so
its result length always equals the number of events, and on an empty
event list the result is empty. -/
theorem C8_cycle_count (frame : SampleTable) (events : List Event)
    (initial_state : ℚ) :
    (summarize_cycles frame events initial_state).length = events.length ∧
    summarize_cycles frame [] initial_state = [] := by
  constructor
  · cases events with
    | nil => simp [summarize_cycles]
    | cons e rest =>
      simp only [summarize_cycles, List.isEmpty_cons, Bool.false_eq_true,
        if_false]
      exact summarizeFrom_length (e :: rest) _ _ _
  · simp [summarize_cycles]

/-- C10: when the driver's `noise_std` is zero, the integrator never
consults the seed-derived random stream, so the output of
`simulate_cycle` is the same for any two noise streams (modelling any
two seeds): identical sample table and identical event list. -/
theorem C10_seed_independence (s : Scenario)
    (h0 : s.driver.noise_std = 0) (noise1 noise2 : ℕ → ℚ) :
    simulate_cycle s noise1 = simulate_cycle s noise2 := by
  unfold simulate_cycle
  rw [simUpTo_noise_eq h0 noise1 noise2]

/-- Witness for C10 at the demo scenario with two different streams. -/
theorem C10_seed_independence_witness :
    simulate_cycle demoScenario zeroStream =
      simulate_cycle demoScenario (fun _ => 37) :=
  C10_seed_independence demoScenario rfl zeroStream (fun _ => 37)

/-- C4 (counterexample): the claim says a piecewise driver with an empty
segment list fails with the single `ConfigurationError` kind.  In the
code the scan falls through to `segments[-1]`, which on an empty list is
an out-of-range index error, not a `ValueError`/`ConfigurationError`. -/
theorem C4_counterexample :
    driver_derivative pwEmpty 0 0 = .error .indexError ∧
    raisesConfigurationError (driver_derivative pwEmpty 0 0) = false := by
  have h : driver_derivative pwEmpty 0 0 = .error .indexError := by
    norm_num [driver_derivative, piecewise_rate, pwEmpty, List.find?,
      (show ¬("piecewise" : String) = "leaky" by decide),
      (show ¬("piecewise" : String) = "linear" by decide)]
  exact ⟨h, by rw [h]; rfl⟩

/-- C4 (amended): a leaky driver missing `rate` or `leak`, a linear
driver missing `rate`, an unsupported driver type, and an empty
threshold set for the viability-margin calculator all fail with the
single `ConfigurationError` kind (`ValueError` in the source); a
piecewise driver, however, fails with an assertion error when its
segments are absent and with an index error when they are empty —
different error kinds. -/
theorem C4_error_kinds (d : DriverSpec) (t st : ℚ) (frame : SampleTable) :
    (d.type = "leaky" → (d.rate = none ∨ d.leak = none) →
      raisesConfigurationError (driver_derivative d t st) = true) ∧
    (d.type = "linear" → d.rate = none →
      raisesConfigurationError (driver_derivative d t st) = true) ∧
    (d.type ≠ "leaky" → d.type ≠ "linear" → d.type ≠ "piecewise" →
      raisesConfigurationError (driver_derivative d t st) = true) ∧
    raisesConfigurationError (compute_viability_margin frame []) = true ∧
    (d.type = "piecewise" → d.segments = none →
      driver_derivative d t st = .error .assertionError) ∧
    (d.type = "piecewise" → d.segments = some [] →
      driver_derivative d t st = .error .indexError) := by
  refine ⟨?_, ?_, ?_, ?_, ?_, ?_⟩
  · intro hty hmiss
    rcases hmiss with hr | hl
    · cases hlk : d.leak <;>
        simp [driver_derivative, hty, hr, hlk, raisesConfigurationError]
    · cases hrt : d.rate <;>
        simp [driver_derivative, hty, hl, hrt, raisesConfigurationError]
  · intro hty hr
    simp [driver_derivative, hty, hr, raisesConfigurationError,
      (show ¬("linear" : String) = "leaky" by decide)]
  · intro h1 h2 h3
    simp [driver_derivative, h1, h2, h3, raisesConfigurationError]
  · simp [compute_viability_margin, raisesConfigurationError]
  · intro hty hseg
    simp [driver_derivative, piecewise_rate, hty, hseg,
      (show ¬("piecewise" : String) = "leaky" by decide),
      (show ¬("piecewise" : String) = "linear" by decide)]
  · intro hty hseg
    simp [driver_derivative, piecewise_rate, hty, hseg, List.find?,
      (show ¬("piecewise" : String) = "leaky" by decide),
      (show ¬("piecewise" : String) = "linear" by decide)]

/-- Witness for the amended C4 at concrete invalid drivers. -/
theorem C4_error_kinds_witness :
    raisesConfigurationError (driver_derivative leakyMissing 0 0) = true ∧
    raisesConfigurationError (driver_derivative linearMissing 0 0) = true ∧
    raisesConfigurationError (driver_derivative weirdDriver 0 0) = true ∧
    raisesConfigurationError (compute_viability_margin emptyTable []) = true ∧
    driver_derivative pwAbsent 0 0 = .error .assertionError := by
  refine ⟨?_, ?_, ?_, ?_, ?_⟩
  · exact (C4_error_kinds leakyMissing 0 0 emptyTable).1 rfl (Or.inr rfl)
  · exact (C4_error_kinds linearMissing 0 0 emptyTable).2.1 rfl rfl
  · exact (C4_error_kinds weirdDriver 0 0 emptyTable).2.2.1
      (by decide) (by decide) (by decide)
  · exact (C4_error_kinds weirdDriver 0 0 emptyTable).2.2.2.1
  · exact (C4_error_kinds pwAbsent 0 0 emptyTable).2.2.2.2.1 rfl rfl

/-- C6: for a non-empty threshold sequence and a non-empty sample table
the viability-margin calculator returns the maximal `theta` as
`top_threshold`, the last accumulator sample as `current_state`,
`margin = top_threshold - current_state`, and
`relative_margin = margin / top_threshold` except that it is the
undefined value when `top_threshold = 0`; in particular a trajectory
ending exactly at `top_threshold` has `margin = 0` and (when defined)
`relative_margin = 0`. -/
theorem C6_viability_margin (frame : SampleTable)
    (thresholds : List ThresholdSpec) (hth : thresholds ≠ [])
    (hacc : frame.accumulator ≠ []) :
    ∃ m, compute_viability_margin frame thresholds = .ok m ∧
      m.top_threshold ∈ thresholds.map (fun th => th.theta) ∧
      (∀ th ∈ thresholds, th.theta ≤ m.top_threshold) ∧
      m.current_state = frame.accumulator.getLastD 0 ∧
      m.margin = m.top_threshold - m.current_state ∧
      (m.top_threshold ≠ 0 → m.relative_margin = some (m.margin / m.top_threshold)) ∧
      (m.top_threshold = 0 → m.relative_margin = none) ∧
      (m.current_state = m.top_threshold →
        m.margin = 0 ∧ (m.top_threshold ≠ 0 → m.relative_margin = some 0)) := by
  haveI : Std.Antisymm (fun x1 x2 : ℚ => x1 ≤ x2) :=
    ⟨fun h1 h2 => le_antisymm h1 h2⟩
  cases hmax : (thresholds.map (fun th => th.theta)).max? with
  | none =>
    exfalso
    have := List.max?_eq_none_iff.mp hmax
    exact hth (List.map_eq_nil_iff.mp this)
  | some top =>
    obtain ⟨hmem, hub⟩ :=
      (List.max?_eq_some_iff (fun a => le_refl a) max_choice
        (fun a b c => max_le_iff)).mp hmax
    refine ⟨⟨frame.accumulator.getLastD 0, top,
        top - frame.accumulator.getLastD 0,
        if top ≠ 0 then some ((top - frame.accumulator.getLastD 0) / top)
        else none⟩, ?_, hmem, ?_, rfl, rfl, ?_, ?_, ?_⟩
    · unfold compute_viability_margin
      rw [hmax]
    · intro th hthm
      exact hub th.theta (List.mem_map_of_mem (fun th => th.theta) hthm)
    · intro hne
      dsimp only at hne ⊢
      rw [if_pos hne]
    · intro h0
      dsimp only at h0 ⊢
      rw [if_neg (not_not_intro h0)]
    · intro hcs
      dsimp only at hcs ⊢
      constructor
      · rw [hcs, sub_self]
      · intro hne
        rw [if_pos hne, hcs]
        norm_num

/-- Witness for C6 at the demo run: top threshold `2`, final state `1`,
margin `1`, relative margin `1/2`. -/
theorem C6_viability_margin_witness :
    compute_viability_margin demoTable demoScenario.thresholds =
      .ok ⟨1, 2, 1, some (1/2)⟩ := by
  obtain ⟨m, hm, -, -, -, -, -, -, -⟩ :=
    C6_viability_margin demoTable demoScenario.thresholds
      (by norm_num [demoScenario]) (by simp [demoTable])
  have heval : compute_viability_margin demoTable demoScenario.thresholds =
      .ok ⟨1, 2, 1, some (1/2)⟩ := by
    norm_num [compute_viability_margin, demoTable, demoScenario,
      List.getLastD]
  exact heval

/-- C2: on an integration step whose proposed state
`accumulator[i-1] + derivative * dt` reaches at least one threshold,
exactly one threshold fires — the last (highest-`theta`) element of the
crossed part of the sorted threshold list — and the step result is
fully determined by it: one event is appended with `time = time[i]`,
`state_before = proposed`, `state_after = reset`; the new accumulator
sample is `max(reset, 0)`; the order parameter grows by its `delta_s`;
the release flag is `1`; the other crossed thresholds have no effect. -/
theorem C2_highest_threshold_fires (s : Scenario) (noise : ℕ → ℚ)
    (times : List ℚ) (idx : ℕ) (acc : SimAcc) (d0 derivative proposed : ℚ)
    (hd : driver_derivative s.driver (times.getD (idx - 1) 0)
      (acc.xs.getLastD 0) = .ok d0)
    (hderiv : derivative = if s.driver.noise_std > 0 then d0 + noise idx else d0)
    (hprop : proposed = acc.xs.getLastD 0 + derivative * s.dt)
    (hcross : ∃ th ∈ s.thresholds, th.theta ≤ proposed) :
    ∃ sel,
      ((sortedThresholds s).filter (fun th => proposed ≥ th.theta)).getLast? =
        some sel ∧
      sel ∈ s.thresholds ∧
      sel.theta ≤ proposed ∧
      (∀ th ∈ (sortedThresholds s).filter (fun th => proposed ≥ th.theta),
        th.theta ≤ sel.theta) ∧
      stepFn s noise times idx acc = .ok
        { xs := acc.xs ++ [max sel.reset 0],
          orders := acc.orders ++ [acc.orders.getLastD 0 + sel.delta_s],
          rels := acc.rels ++ [1],
          drvs := acc.drvs ++ [derivative],
          events := acc.events ++
            [{ time := times.getD idx 0, theta := sel.theta,
               reset := sel.reset, delta_s := sel.delta_s,
               state_before := proposed, state_after := sel.reset }] } := by
  obtain ⟨th0, hth0, hge⟩ := hcross
  have hmemf : th0 ∈ (sortedThresholds s).filter
      (fun th => proposed ≥ th.theta) := by
    refine List.mem_filter.mpr ⟨?_, ?_⟩
    · unfold sortedThresholds
      exact List.mem_mergeSort.mpr hth0
    · exact decide_eq_true hge
  rcases List.eq_nil_or_concat ((sortedThresholds s).filter
      (fun th => proposed ≥ th.theta)) with hnil | ⟨ys, sel, hconcat⟩
  · rw [hnil] at hmemf
    exact absurd hmemf (List.not_mem_nil th0)
  · have hsel : ((sortedThresholds s).filter
        (fun th => proposed ≥ th.theta)).getLast? = some sel := by
      rw [hconcat, List.concat_eq_append]
      exact List.getLast?_concat ys
    refine ⟨sel, hsel, ?_, ?_, ?_, ?_⟩
    · exact mem_sortedThresholds (List.mem_of_mem_filter (mem_of_getLast?_eq hsel))
    · have := (List.mem_filter.mp (mem_of_getLast?_eq hsel)).2
      exact of_decide_eq_true this
    · exact getLast?_theta_max
        ((sortedThresholds_pairwise s).filter _) hsel
    · unfold stepFn
      rw [hd]
      dsimp only
      rw [← hderiv, ← hprop, hsel]

/-- Witness for C2: the firing step (index 2) of the demo run. -/
theorem C2_highest_threshold_fires_witness :
    stepFn demoScenario zeroStream [0, 1, 2, 3] 2
      ⟨[0, 1], [0, 0], [0, 0], [1], []⟩ =
    .ok ⟨[0, 1, 0], [0, 0, 1], [0, 0, 1], [1, 1], [demoEvent]⟩ := by
  obtain ⟨sel, hsel, -, -, -, hstep⟩ :=
    C2_highest_threshold_fires demoScenario zeroStream [0, 1, 2, 3] 2
      ⟨[0, 1], [0, 0], [0, 0], [1], []⟩ 1 1 2
      (by norm_num [driver_derivative, demoScenario, List.getD,
        List.getLastD, (show ¬("linear" : String) = "leaky" by decide)])
      (by norm_num [demoScenario, zeroStream])
      (by norm_num [demoScenario, List.getLastD])
      ⟨⟨2, 0, 1⟩, by norm_num [demoScenario], by norm_num⟩
  have heval : ((sortedThresholds demoScenario).filter
      (fun th => (2 : ℚ) ≥ th.theta)).getLast? = some ⟨2, 0, 1⟩ := by
    norm_num [sortedThresholds, demoScenario, List.mergeSort, List.filter]
  rw [heval] at hsel
  cases hsel
  rw [hstep]
  norm_num [List.getLastD, demoEvent]

/-- Index-wise characterisation of the event loop of the summarizer:
the `k`-th summary ends at the `k`-th event's time, starts at the
running start (the initial one for `k = 0`, the previous event's time
afterwards), and carries the degenerate-duration and slope logic. -/
lemma summarizeFrom_get (evs : List Event) :
    ∀ (lt ls lo : ℚ) (k : ℕ) (ev : Event), evs[k]? = some ev →
      ∃ c, (summarizeFrom lt ls lo evs)[k]? = some c ∧
        c.end_time = ev.time ∧
        (k = 0 → c.start_time = lt) ∧
        (∀ j, k = j + 1 → ∃ prev, evs[j]? = some prev ∧
          c.start_time = prev.time) ∧
        c.duration = (if ev.time - c.start_time ≤ 0 then none
          else some (ev.time - c.start_time)) ∧
        c.mean_slope = (match c.duration with
          | some d => if d = 0 then none else some (c.ramp_amplitude / d)
          | none => none) := by
  induction evs with
  | nil =>
    intro lt ls lo k ev h
    simp at h
  | cons e rest ih =>
    intro lt ls lo k ev h
    cases k with
    | zero =>
      simp only [List.getElem?_cons_zero, Option.some.injEq] at h
      subst h
      refine ⟨{ start_time := lt, end_time := e.time,
                duration := if e.time - lt ≤ 0 then none else some (e.time - lt),
                ramp_amplitude := e.state_before - ls,
                mean_slope := (match (if e.time - lt ≤ 0 then none
                    else some (e.time - lt) : Option ℚ) with
                  | some d => if d = 0 then none else some ((e.state_before - ls) / d)
                  | none => none),
                release_gain := e.delta_s, theta := e.theta,
                reset_level := e.reset },
        by simp only [summarizeFrom, List.getElem?_cons_zero],
        rfl, fun _ => rfl, ?_, rfl, rfl⟩
      intro j hj
      exact absurd hj (by omega)
    | succ j =>
      simp only [List.getElem?_cons_succ] at h
      obtain ⟨c, hc, he, h0, hprev, hdur, hslope⟩ :=
        ih e.time e.reset (lo + e.delta_s) j ev h
      refine ⟨c, ?_, he, ?_, ?_, hdur, hslope⟩
      · simpa only [summarizeFrom, List.getElem?_cons_succ] using hc
      · intro hj
        exact absurd hj (by omega)
      · intro j' hj'
        have hjj : j = j' := by omega
        subst hjj
        cases j with
        | zero =>
          exact ⟨e, by simp, h0 rfl⟩
        | succ j'' =>
          obtain ⟨prev, hp, hs⟩ := hprev j'' rfl
          exact ⟨prev, by simpa only [List.getElem?_cons_succ] using hp, hs⟩

/-- C7: for the `k`-th event processed by the cycle summarizer,
`duration = event.time - start_time`, where the first cycle starts at
the first sample's time and each later cycle at the previous event's
time; a non-positive duration is reported as the undefined value, and
`mean_slope = ramp_amplitude / duration` exactly when the duration is
defined (hence nonzero), otherwise undefined. -/
theorem C7_cycle_durations (frame : SampleTable) (events : List Event)
    (initial_state : ℚ) (k : ℕ) (ev : Event) (hk : events[k]? = some ev) :
    ∃ c, (summarize_cycles frame events initial_state)[k]? = some c ∧
      c.end_time = ev.time ∧
      (k = 0 → c.start_time = frame.time.headD 0) ∧
      (∀ j, k = j + 1 → ∃ prev, events[j]? = some prev ∧
        c.start_time = prev.time) ∧
      (ev.time - c.start_time ≤ 0 → c.duration = none) ∧
      (0 < ev.time - c.start_time →
        c.duration = some (ev.time - c.start_time)) ∧
      (∀ d, c.duration = some d → d ≠ 0 →
        c.mean_slope = some (c.ramp_amplitude / d)) ∧
      (c.duration = none → c.mean_slope = none) := by
  cases events with
  | nil => simp at hk
  | cons e rest =>
    obtain ⟨c, hc, he, h0, hprev, hdur, hslope⟩ :=
      summarizeFrom_get (e :: rest) (frame.time.headD 0) initial_state 0
        k ev hk
    refine ⟨c, ?_, he, h0, hprev, ?_, ?_, ?_, ?_⟩
    · simpa only [summarize_cycles, List.isEmpty_cons, Bool.false_eq_true,
        if_false] using hc
    · intro hle
      rw [hdur, if_pos hle]
    · intro hlt
      rw [hdur, if_neg (by linarith)]
    · intro d hd hdne
      rw [hslope, hd]
      exact if_neg hdne
    · intro hd
      rw [hslope, hd]

/-- Witness for C7 at the demo run: one event at time 2, first-cycle
duration `2 - 0 = 2`, mean slope `2 / 2 = 1`. -/
theorem C7_cycle_durations_witness :
    (summarize_cycles demoTable [demoEvent] 0)[0]? = some demoSummary ∧
    demoSummary.duration = some 2 ∧ demoSummary.mean_slope = some 1 := by
  obtain ⟨c, hc, -, -, -, -, -, -, -⟩ :=
    C7_cycle_durations demoTable [demoEvent] 0 0 demoEvent (by simp)
  have heval : summarize_cycles demoTable [demoEvent] 0 = [demoSummary] := by
    norm_num [summarize_cycles, summarizeFrom, demoTable, demoEvent,
      demoSummary]
  refine ⟨by rw [heval]; simp, by norm_num [demoSummary],
    by norm_num [demoSummary]⟩

/-- C3 (counterexample): the claim says every inter-sample interval
equals `dt` except possibly the final one.  With `duration = 1` and
`dt = 2/5` the grid is `[0, 1/3, 2/3, 1]` (`np.linspace` spreads the
shortfall uniformly), so already the first interval — not the final
one, since the grid has 4 samples — is `1/3 ≠ 2/5 = dt`. -/
theorem C3_counterexample :
    simulate_cycle fracStepScenario zeroStream = .ok (fracStepTable, []) ∧
    fracStepTable.time.getD 1 0 - fracStepTable.time.getD 0 0 = 1/3 ∧
    ¬ fracStepTable.time.getD 1 0 - fracStepTable.time.getD 0 0 =
      fracStepScenario.dt ∧
    1 + 1 < fracStepTable.time.length := by
  refine ⟨fracStep_run, ?_, ?_, ?_⟩ <;>
    norm_num [fracStepTable, fracStepScenario, List.getD]

/-- C3 (amended): for `dt > 0` and `duration ≥ 0` the time column has
exactly `ceil(duration/dt) + 1` entries, starts at `0` and ends at
`duration`; all inter-sample intervals are equal, namely
`duration / ceil(duration/dt)`, and each is at most `dt` (equal to `dt`
exactly when `dt` divides `duration`) — not `dt` with only the final
interval shorter, as the grid comes from `np.linspace`. -/
theorem C3_time_grid (s : Scenario) (noise : ℕ → ℚ) (tbl : SampleTable)
    (evs : List Event) (hok : simulate_cycle s noise = .ok (tbl, evs))
    (hdt : 0 < s.dt) (hdur : 0 ≤ s.duration) :
    tbl.time.length = (⌈s.duration / s.dt⌉).toNat + 1 ∧
    tbl.time.getD 0 0 = 0 ∧
    tbl.time.getD (tbl.time.length - 1) 0 = s.duration ∧
    ∀ i, i + 1 < tbl.time.length →
      tbl.time.getD (i + 1) 0 - tbl.time.getD i 0 =
        s.duration / (((⌈s.duration / s.dt⌉).toNat : ℕ) : ℚ) ∧
      tbl.time.getD (i + 1) 0 - tbl.time.getD i 0 ≤ s.dt := by
  have htime : tbl.time = linspace01 s.duration (numSteps s) := by
    unfold simulate_cycle at hok
    cases hsim : simUpTo s noise (timeGrid s) (numSteps s - 1) with
    | error e => rw [hsim] at hok; exact Except.noConfusion hok
    | ok acc =>
      rw [hsim] at hok
      dsimp only at hok
      cases hok
      rfl
  have hceil0 : (0 : ℤ) ≤ ⌈s.duration / s.dt⌉ :=
    Int.ceil_nonneg (div_nonneg hdur (le_of_lt hdt))
  rw [htime]
  cases hm : (⌈s.duration / s.dt⌉).toNat with
  | zero =>
    have hz : ⌈s.duration / s.dt⌉ = 0 := by omega
    have hdd : s.duration / s.dt ≤ 0 := by
      have h1 := Int.ceil_le.mp (le_of_eq hz)
      simpa using h1
    have hq : s.duration / s.dt = 0 :=
      le_antisymm hdd (div_nonneg hdur hdt.le)
    have hd0 : s.duration = 0 := by
      rcases div_eq_zero_iff.mp hq with h | h
      · exact h
      · exact absurd h (ne_of_gt hdt)
    have hns : numSteps s = 1 := by
      unfold numSteps
      rw [hm]
    rw [hns]
    have hls : linspace01 s.duration 1 = [0] := by
      unfold linspace01
      rw [if_pos (by norm_num)]
      rfl
    rw [hls]
    refine ⟨rfl, rfl, by simpa using hd0.symm, ?_⟩
    intro i hi
    rw [List.length_singleton] at hi
    exact absurd hi (by omega)
  | succ n =>
    have hns : numSteps s = n + 2 := by
      unfold numSteps
      rw [hm]
    rw [hns]
    have hpos : (0 : ℚ) < ((n + 1 : ℕ) : ℚ) :=
      Nat.cast_pos.mpr (Nat.succ_pos n)
    have hle : s.duration ≤ ((n + 1 : ℕ) : ℚ) * s.dt := by
      have h1 : s.duration / s.dt ≤ ((⌈s.duration / s.dt⌉ : ℤ) : ℚ) :=
        Int.le_ceil _
      have h3 : ((⌈s.duration / s.dt⌉.toNat : ℕ) : ℤ) = ⌈s.duration / s.dt⌉ :=
        Int.toNat_of_nonneg hceil0
      have h2 : ((⌈s.duration / s.dt⌉ : ℤ) : ℚ) = ((n + 1 : ℕ) : ℚ) := by
        rw [← h3, hm]
        push_cast
        ring
      rw [h2] at h1
      calc s.duration = s.duration / s.dt * s.dt := by field_simp
        _ ≤ ((n + 1 : ℕ) : ℚ) * s.dt :=
            mul_le_mul_of_nonneg_right h1 hdt.le
    refine ⟨by rw [linspace01_length], ?_, ?_, ?_⟩
    · rw [@linspace01_getD s.duration (n + 2) 0 (by omega) (by omega)]
      norm_num
    · rw [linspace01_length, show n + 2 - 1 = n + 1 from rfl,
        @linspace01_getD s.duration (n + 2) (n + 1) (by omega) (by omega),
        show ((n + 2 - 1 : ℕ) : ℚ) = ((n + 1 : ℕ) : ℚ) from rfl,
        mul_div_assoc, div_self (ne_of_gt hpos), mul_one]
    · intro i hi
      rw [linspace01_length] at hi
      rw [@linspace01_getD s.duration (n + 2) (i + 1) (by omega) (by omega),
        @linspace01_getD s.duration (n + 2) i (by omega) (by omega),
        show ((n + 2 - 1 : ℕ) : ℚ) = ((n + 1 : ℕ) : ℚ) from rfl]
      have hdiff : s.duration * ((i + 1 : ℕ) : ℚ) / ((n + 1 : ℕ) : ℚ) -
          s.duration * (i : ℚ) / ((n + 1 : ℕ) : ℚ) =
          s.duration / ((n + 1 : ℕ) : ℚ) := by
        rw [div_sub_div_same]
        congr 1
        push_cast
        ring
      rw [hdiff]
      refine ⟨rfl, ?_⟩
      rw [div_le_iff hpos]
      rwa [mul_comm]

/-- Witness for the amended C3 at the fractional-step scenario. -/
theorem C3_time_grid_witness :
    fracStepTable.time.length = 4 ∧ 0 < fracStepScenario.dt := by
  obtain ⟨hlen, -, -, -⟩ :=
    C3_time_grid fracStepScenario zeroStream fracStepTable [] fracStep_run
      (by norm_num [fracStepScenario]) (by norm_num [fracStepScenario])
  refine ⟨?_, by norm_num [fracStepScenario]⟩
  rw [hlen]
  have h : fracStepScenario.duration / fracStepScenario.dt = 5 / 2 := by
    norm_num [fracStepScenario]
  rw [h, show ⌈(5 : ℚ) / 2⌉ = 3 by norm_num [Int.ceil_eq_iff]]
  decide

/-- The perturbation loop never changes `delta_s`. -/
lemma perturbThresholds_delta_s (gauss : ℕ → ℚ) (jT jR : ℚ) :
    ∀ (c : ℕ) (l : List ThresholdSpec),
      (perturbThresholds gauss jT jR c l).map (fun th => th.delta_s) =
        l.map (fun th => th.delta_s) := by
  intro c l
  induction l generalizing c with
  | nil => rfl
  | cons th rest ih => simp [perturbThresholds, ih]

/-- With zero `theta` jitter the perturbation loop keeps every `theta`. -/
lemma perturbThresholds_theta_zero (gauss : ℕ → ℚ) (jR : ℚ) :
    ∀ (c : ℕ) (l : List ThresholdSpec),
      (perturbThresholds gauss 0 jR c l).map (fun th => th.theta) =
        l.map (fun th => th.theta) := by
  intro c l
  induction l generalizing c with
  | nil => rfl
  | cons th rest ih => simp [perturbThresholds, ih]

/-- With zero `reset` jitter the perturbation loop keeps every `reset`. -/
lemma perturbThresholds_reset_zero (gauss : ℕ → ℚ) (jT : ℚ) :
    ∀ (c : ℕ) (l : List ThresholdSpec),
      (perturbThresholds gauss jT 0 c l).map (fun th => th.reset) =
        l.map (fun th => th.reset) := by
  intro c l
  induction l generalizing c with
  | nil => rfl
  | cons th rest ih => simp [perturbThresholds, ih]

/-- Structure of a successful ensemble loop run starting at member
`index` with the top-level draw stream at position `c`: one tagged table
per remaining member, in member order, each produced by integrating the
member's perturbed scenario copy with that member's noise stream. -/
lemma ensembleFrom_spec (s : Scenario) (jitter : String → Option ℚ)
    (gauss : ℕ → ℚ) (memberNoise : ℕ → ℕ → ℚ) :
    ∀ (size index c : ℕ) (res : List TaggedTable),
      ensembleFrom s jitter gauss memberNoise size index c = .ok res →
      res.length = size ∧
      ∀ k, k < size → ∃ tt, res[k]? = some tt ∧ tt.member = index + k ∧
        ∃ evs, simulate_cycle (perturbedScenario s jitter gauss
            (c + k * memberDrawCount s) (index + k)) (memberNoise (index + k)) =
          .ok (tt.frame, evs) := by
  intro size
  induction size with
  | zero =>
    intro index c res h
    unfold ensembleFrom at h
    cases h
    exact ⟨rfl, fun k hk => absurd hk (Nat.not_lt_zero k)⟩
  | succ size ih =>
    intro index c res h
    unfold ensembleFrom at h
    cases hsim : simulate_cycle (perturbedScenario s jitter gauss c index)
        (memberNoise index) with
    | error e => rw [hsim] at h; exact Except.noConfusion h
    | ok pr =>
      obtain ⟨frame, evs⟩ := pr
      rw [hsim] at h
      dsimp only at h
      cases hrest : ensembleFrom s jitter gauss memberNoise size (index + 1)
          (c + memberDrawCount s) with
      | error e => rw [hrest] at h; exact Except.noConfusion h
      | ok rest =>
        rw [hrest] at h
        dsimp only at h
        cases h
        obtain ⟨hlen, hmem⟩ := ih (index + 1) (c + memberDrawCount s) rest hrest
        refine ⟨by simp [hlen], ?_⟩
        intro k hk
        cases k with
        | zero =>
          refine ⟨⟨frame, index⟩, by simp, by simp, evs, ?_⟩
          simpa using hsim
        | succ k' =>
          obtain ⟨tt, h1, h2, evs', h3⟩ := hmem k' (by omega)
          refine ⟨tt, by simpa using h1, by omega, evs', ?_⟩
          have e1 : c + memberDrawCount s + k' * memberDrawCount s =
              c + (k' + 1) * memberDrawCount s := by ring
          have e2 : index + 1 + k' = index + (k' + 1) := by omega
          rw [e1, e2] at h3
          exact h3

/-- C9: a successful `simulate_ensemble` run of size `N` yields exactly
`N` tagged sample tables, the `k`-th tagged with member index `k` and
produced by integrating the `k`-th perturbed scenario copy; the
perturbation never changes any threshold's `delta_s`, and a jitter key
absent from the configuration (looked up as `0`) leaves the
corresponding parameter unperturbed. -/
theorem C9_ensemble_shape (s : Scenario) (size : ℕ)
    (jitter : String → Option ℚ) (gauss : ℕ → ℚ)
    (memberNoise : ℕ → ℕ → ℚ) (res : List TaggedTable)
    (hok : simulate_ensemble s size jitter gauss memberNoise = .ok res) :
    res.length = size ∧
    (∀ k, k < size → ∃ tt, res[k]? = some tt ∧ tt.member = k ∧
      ∃ evs, simulate_cycle (perturbedScenario s jitter gauss
          (k * memberDrawCount s) k) (memberNoise k) = .ok (tt.frame, evs)) ∧
    (∀ c i, ((perturbedScenario s jitter gauss c i).thresholds.map
        (fun th => th.delta_s)) = s.thresholds.map (fun th => th.delta_s)) ∧
    (jitter ("theta") = none → ∀ c i,
      ((perturbedScenario s jitter gauss c i).thresholds.map
        (fun th => th.theta)) = s.thresholds.map (fun th => th.theta)) ∧
    (jitter ("reset") = none → ∀ c i,
      ((perturbedScenario s jitter gauss c i).thresholds.map
        (fun th => th.reset)) = s.thresholds.map (fun th => th.reset)) ∧
    (jitter ("rate") = none → ∀ c i,
      (perturbedScenario s jitter gauss c i).driver.rate = s.driver.rate) ∧
    (jitter ("leak") = none → ∀ c i,
      (perturbedScenario s jitter gauss c i).driver.leak = s.driver.leak) := by
  obtain ⟨hlen, hmem⟩ :=
    ensembleFrom_spec s jitter gauss memberNoise size 0 0 res hok
  refine ⟨hlen, ?_, ?_, ?_, ?_, ?_, ?_⟩
  · intro k hk
    obtain ⟨tt, h1, h2, evs, h3⟩ := hmem k hk
    refine ⟨tt, h1, by simpa using h2, evs, ?_⟩
    simpa using h3
  · intro c i
    simpa [perturbedScenario] using
      perturbThresholds_delta_s gauss (jitterGet jitter ("theta"))
        (jitterGet jitter ("reset")) (c + 2) s.thresholds
  · intro hth c i
    have h0 : jitterGet jitter ("theta") = 0 := by simp [jitterGet, hth]
    simp only [perturbedScenario, h0]
    exact perturbThresholds_theta_zero gauss (jitterGet jitter ("reset"))
      (c + 2) s.thresholds
  · intro hth c i
    have h0 : jitterGet jitter ("reset") = 0 := by simp [jitterGet, hth]
    simp only [perturbedScenario, h0]
    exact perturbThresholds_reset_zero gauss (jitterGet jitter ("theta"))
      (c + 2) s.thresholds
  · intro hr c i
    have h0 : jitterGet jitter ("rate") = 0 := by simp [jitterGet, hr]
    simp only [perturbedScenario, h0]
    cases s.driver.rate <;> simp
  · intro hl c i
    have h0 : jitterGet jitter ("leak") = 0 := by simp [jitterGet, hl]
    simp only [perturbedScenario, h0]
    cases s.driver.leak <;> simp

/-- The member-0 perturbed copy under the empty jitter configuration
evaluates to `demoMember0`. -/
lemma perturbed_demo_member0 :
    perturbedScenario demoScenario noJitter zeroStream 0 0 = demoMember0 := by
  norm_num [perturbedScenario, perturbThresholds, jitterGet, noJitter,
    zeroStream, demoScenario, demoMember0]

/-- Grid size of the member-0 copy. -/
lemma numSteps_demoMember0 : numSteps demoMember0 = 4 := by
  norm_num [numSteps, demoMember0]
  decide

/-- Time grid of the member-0 copy. -/
lemma timeGrid_demoMember0 : timeGrid demoMember0 = [0, 1, 2, 3] := by
  unfold timeGrid
  rw [numSteps_demoMember0]
  norm_num [linspace01, List.range_succ, demoMember0]

/-- Concrete evaluation of the member-0 run. -/
lemma demoMember0_run : simulate_cycle demoMember0 (zeroStream2 0) =
    .ok (demoTable, [demoEvent]) := by
  unfold simulate_cycle
  rw [numSteps_demoMember0, timeGrid_demoMember0]
  have hs : simUpTo demoMember0 (zeroStream2 0) [0, 1, 2, 3] (4 - 1) =
      .ok ⟨[0, 1, 0, 1], [0, 0, 1, 1], [0, 0, 1, 0], [1, 1, 1],
        [⟨2, 2, 0, 1, 2, 0⟩]⟩ := by
    norm_num [simUpTo, stepFn, driver_derivative, sortedThresholds,
      demoMember0, zeroStream2, List.getLastD, List.mergeSort, List.filter,
      List.getD, (show ¬("linear" : String) = "leaky" by decide)]
  rw [hs]
  norm_num [fillDriver, demoTable, demoEvent, List.getLastD]

/-- Concrete evaluation of a size-1 ensemble of the demo scenario. -/
lemma demo_ensemble_run :
    simulate_ensemble demoScenario 1 noJitter zeroStream zeroStream2 =
      .ok [⟨demoTable, 0⟩] := by
  unfold simulate_ensemble
  have h1 : ensembleFrom demoScenario noJitter zeroStream zeroStream2 1 0 0 =
      .ok [⟨demoTable, 0⟩] := by
    simp only [ensembleFrom]
    rw [perturbed_demo_member0, demoMember0_run]
  exact h1

/-- Witness for C9 at a size-1 ensemble of the demo scenario. -/
theorem C9_ensemble_shape_witness :
    simulate_ensemble demoScenario 1 noJitter zeroStream zeroStream2 =
      .ok [⟨demoTable, 0⟩] ∧
    [(⟨demoTable, 0⟩ : TaggedTable)].length = 1 ∧
    (⟨demoTable, 0⟩ : TaggedTable).member = 0 := by
  obtain ⟨hlen, -, -, -, -, -, -⟩ :=
    C9_ensemble_shape demoScenario 1 noJitter zeroStream zeroStream2
      [⟨demoTable, 0⟩] demo_ensemble_run
  exact ⟨demo_ensemble_run, hlen, rfl⟩
